import Mathlib

/-!
Shallow embedding of the MOMO token backend's indexing-and-aggregation
pipeline (`backend/src/workers`: the blockchain indexer and the analytics
worker), together with proofs about the indexer cursor discipline, the
idempotent upsert repository, the metrics tick and the leaderboard
calculator.

Conventions of the embedding:
* uint256 on-chain amounts (stored as decimal strings in the database and
  manipulated through JS `BigInt`) are modelled as `Nat`; `BigInt` division
  is truncating division on nonnegative values, i.e. `Nat` division, and
  `BigInt(x) / BigInt(0)` throws a `RangeError`.
* timestamps (`Date` values, Prisma `createdAt`) are milliseconds since the
  epoch as `Nat`; `setHours(0,0,0,0)` is modelled in a fixed UTC-like zone
  as rounding down to a multiple of `msPerDay`.
* each Prisma table is an explicit list of rows; `upsert` walks the list
  looking for the unique key, Prisma row ids are positions of creation.
* fallible JS steps are modelled by explicit branches: a `try`/`catch`
  that swallows an exception becomes "return the state reached at the
  throw point".
-/

namespace Momo

/-! ## Data model: rows of the tables touched by the workers -/

/-- A row of the `User` table: normalized wallet address plus the generated
id (`user.id`), modelled as the creation index. -/
structure UserRow where
  walletAddress : String
  id : Nat
deriving DecidableEq

/-- A row of the `Transaction` table, unique key `txHash`.  Fields are the
ones written by `processSwapEvent`. -/
structure TransactionRow where
  txHash : String
  userId : Nat
  fromAddress : String
  toAddress : String
  tokenAddress : String
  amount : Nat
  amountInEth : Nat
  tokenAmount : Nat
  type : String
  status : String
  blockNumber : Nat
  blockHash : Option String
  gasUsed : Option Nat
  gasPrice : Option Nat
  confirmations : Nat
deriving DecidableEq

/-- A row of the `SwapEvent` table, unique key `(txHash, logIndex)`.
`createdAt` is the Prisma insertion timestamp (read back by the
leaderboard calculator). -/
structure SwapEventRow where
  txHash : String
  blockNumber : Nat
  blockHash : String
  buyer : String
  ethAmount : Nat
  tokenAmount : Nat
  tokensPerEth : Nat
  logIndex : Nat
  createdAt : Nat
deriving DecidableEq

/-- A row of the `TokenMetrics` table, written by `calculateMetrics`.
The floating-point display field `priceInEth` (JS
`1 / parseFloat(...) * 1e18`) is not modelled; no claim reads it. -/
structure MetricsRow where
  timestamp : Nat
  totalSupply : Nat
  contractBalance : Nat
  totalSwaps : Nat
  totalVolumeEth : Nat
  totalVolumeTokens : Nat
  uniqueUsers : Nat
  tokensPerEth : Nat
deriving DecidableEq

/-- The relational store as seen by the two workers.  The `RateUpdate`
table is append-only, touched only by `processRateUpdateEvent`, and read
by no claim, so it is omitted. -/
structure DB where
  users : List UserRow
  transactions : List TransactionRow
  swapEvents : List SwapEventRow
  metrics : List MetricsRow
deriving DecidableEq

def emptyDB : DB := ⟨[], [], [], []⟩

/-! ## Raw events

A raw log as the indexer sees it, together with the per-event chain data
(`event.getBlock()`, `event.getTransactionReceipt()`) fetched while
processing it.  `malformed = true` models `contract.interface.parseLog`
either throwing on the log or returning `null`: in both cases
`processSwapEvent` performs no write for that log. -/

structure RawEvent where
  malformed : Bool
  buyer : String
  ethAmount : Nat
  tokenAmount : Nat
  txHash : String
  txStatus : Nat
  blockNumber : Nat
  blockHash : Option String
  gasUsed : Option Nat
  gasPrice : Option Nat
  logIndex : Nat
deriving DecidableEq

def CONTRACT_ADDRESS : String := "0xa451b908c7ad183abd55f8ad48c055da8cb4264d"

/-- JS `String.prototype.toLowerCase()` on the ASCII hex addresses this
system handles: lower-case every character.  (Defined over the character
list so that concrete instances reduce inside the kernel.) -/
def jsToLower (s : String) : String := ⟨s.data.map Char.toLower⟩

/-! ## Persistence repository: the upserts performed by `processSwapEvent` -/

/-- `prisma.user.findUnique` + `prisma.user.create`: return the existing
user for the (already lower-cased) wallet address, or append a fresh one
whose generated id is the current table length. -/
def findOrCreateUser (db : DB) (wallet : String) : DB × Nat :=
  match db.users.find? (fun u => u.walletAddress = wallet) with
  | some u => (db, u.id)
  | none =>
      let uid := db.users.length
      ({ db with users := db.users ++ [⟨wallet, uid⟩] }, uid)

/-- The `create` branch of `prisma.transaction.upsert` in
`processSwapEvent`. -/
def createTxRow (ev : RawEvent) (uid : Nat) : TransactionRow :=
  { txHash := ev.txHash
    userId := uid
    fromAddress := jsToLower ev.buyer
    toAddress := CONTRACT_ADDRESS
    tokenAddress := CONTRACT_ADDRESS
    amount := ev.ethAmount
    amountInEth := ev.ethAmount
    tokenAmount := ev.tokenAmount
    type := "SWAP_ETH_TO_TOKEN"
    status := if ev.txStatus = 1 then "CONFIRMED" else "FAILED"
    blockNumber := ev.blockNumber
    blockHash := ev.blockHash
    gasUsed := ev.gasUsed
    gasPrice := ev.gasPrice
    confirmations := 0 }

/-- The `update` branch of `prisma.transaction.upsert`: only status, block
and gas fields appear in the update object.  A `none` (JS `undefined`)
value for `blockHash`/`gasUsed`/`gasPrice` makes Prisma leave the stored
field unchanged. -/
def updateTxRow (r : TransactionRow) (ev : RawEvent) : TransactionRow :=
  { r with
    status := if ev.txStatus = 1 then "CONFIRMED" else "FAILED"
    blockNumber := ev.blockNumber
    blockHash := match ev.blockHash with | some h => some h | none => r.blockHash
    gasUsed := match ev.gasUsed with | some g => some g | none => r.gasUsed
    gasPrice := match ev.gasPrice with | some g => some g | none => r.gasPrice }

/-- `prisma.transaction.upsert` keyed by `txHash`: update the first row
with the key, or append the created row. -/
def upsertTxRow (rows : List TransactionRow) (ev : RawEvent) (uid : Nat) :
    List TransactionRow :=
  match rows with
  | [] => [createTxRow ev uid]
  | r :: rest =>
      if r.txHash = ev.txHash then updateTxRow r ev :: rest
      else r :: upsertTxRow rest ev uid

/-- The `create` branch of `prisma.swapEvent.upsert`; `tokensPerEth` is
`BigInt(tokenAmount) / BigInt(ethAmount)` (truncating), only evaluated on
the `ev.ethAmount ≠ 0` path of `processSwapEvent`. -/
def createSwapRow (ev : RawEvent) (now : Nat) : SwapEventRow :=
  { txHash := ev.txHash
    blockNumber := ev.blockNumber
    blockHash := ev.blockHash.getD ""
    buyer := jsToLower ev.buyer
    ethAmount := ev.ethAmount
    tokenAmount := ev.tokenAmount
    tokensPerEth := ev.tokenAmount / ev.ethAmount
    logIndex := ev.logIndex
    createdAt := now }

/-- `prisma.swapEvent.upsert` keyed by `(txHash, logIndex)` with
`update: {}`: a hit leaves the table exactly as it was. -/
def upsertSwapRow (rows : List SwapEventRow) (newRow : SwapEventRow) :
    List SwapEventRow :=
  match rows with
  | [] => [newRow]
  | r :: rest =>
      if r.txHash = newRow.txHash ∧ r.logIndex = newRow.logIndex then r :: rest
      else r :: upsertSwapRow rest newRow

/-! ## `processSwapEvent`

The whole body is wrapped in `try { ... } catch (error) { logger.error }`,
so any throw leaves the database exactly as it was at the throw point and
the caller continues with the next log.  The two throw points reachable in
the model: `parseLog` (before any write), and the `RangeError` of
`BigInt(tokenAmount) / BigInt(ethAmount)` when `ethAmount = 0`, raised
while building the `swapEvent.upsert` arguments — after the user and
transaction writes, before the swap-event write. -/

def processSwapEvent (db : DB) (ev : RawEvent) (now : Nat) : DB :=
  if ev.malformed then db
  else
    let p := findOrCreateUser db (jsToLower ev.buyer)
    let db2 := { p.1 with transactions := upsertTxRow p.1.transactions ev p.2 }
    if ev.ethAmount = 0 then db2
    else { db2 with swapEvents := upsertSwapRow db2.swapEvents (createSwapRow ev now) }

/-- The swap-event loop of `processBlocks`: `processSwapEvent` never
throws (its `catch` swallows everything), so the loop always reaches every
log of the batch.  Per-row insertion timestamps within one cycle are
collapsed to the cycle's time `now`. -/
def processSwaps (db : DB) (evs : List RawEvent) (now : Nat) : DB :=
  evs.foldl (fun d ev => processSwapEvent d ev now) db

/-- Number of `SwapEvent` rows carrying a given `(txHash, logIndex)` key. -/
def swapCount (rows : List SwapEventRow) (h : String) (i : Nat) : Nat :=
  (rows.filter (fun r => decide (r.txHash = h ∧ r.logIndex = i))).length

/-- The frame of the `Transaction` update path: the repository relates a
prior row `t` to its successor `t'` by preserving identity, ownership,
addresses, amounts, type and confirmations, and the successor is either
the untouched row or exactly `updateTxRow t ev` (which writes only
status, block and gas fields). -/
def txFrameOK (ev : RawEvent) (t t' : TransactionRow) : Prop :=
  t'.txHash = t.txHash ∧ t'.userId = t.userId ∧ t'.fromAddress = t.fromAddress ∧
  t'.toAddress = t.toAddress ∧ t'.tokenAddress = t.tokenAddress ∧
  t'.amount = t.amount ∧ t'.amountInEth = t.amountInEth ∧
  t'.tokenAmount = t.tokenAmount ∧ t'.type = t.type ∧
  t'.confirmations = t.confirmations ∧ (t' = t ∨ t' = updateTxRow t ev)

/-- A concrete well-formed `TokensPurchased` log used to instantiate
theorems with hypotheses. -/
def sampleEv : RawEvent :=
  { malformed := false, buyer := "0xAbCd", ethAmount := 2, tokenAmount := 10,
    txHash := "0xt1", txStatus := 1, blockNumber := 7, blockHash := some "0xb7",
    gasUsed := some 21000, gasPrice := some 5, logIndex := 3 }

/-- The same log with a zero decoded `ethAmount`. -/
def zeroEthEv : RawEvent := { sampleEv with ethAmount := 0 }

/-- A log on which `parseLog` fails. -/
def badEv : RawEvent := { sampleEv with malformed := true, logIndex := 9 }

/-! ## Metrics aggregator (`calculateMetrics`)

`prisma.swapEvent.findFirst({orderBy: {createdAt: 'desc'}})`: a latest row
by `createdAt`, or `none` on an empty table. -/

def latestSwap (rows : List SwapEventRow) : Option SwapEventRow :=
  rows.foldl
    (fun acc r =>
      match acc with
      | none => some r
      | some b => if b.createdAt ≤ r.createdAt then some r else some b)
    none

/-- `calculateMetrics`: when no swap event exists, log and return without
touching the store; otherwise append one immutable snapshot computed from
the full `SwapEvent` history (`getContractBalance()` is the placeholder
`'0'`; `totalSupply` the literal 1 billion tokens). -/
def calculateMetrics (db : DB) (now : Nat) : DB :=
  match latestSwap db.swapEvents with
  | none => db
  | some latest =>
      { db with
        metrics := db.metrics ++
          [{ timestamp := now
             totalSupply := 1000000000000000000000000000
             contractBalance := 0
             totalSwaps := db.swapEvents.length
             totalVolumeEth := (db.swapEvents.map (fun r => r.ethAmount)).sum
             totalVolumeTokens := (db.swapEvents.map (fun r => r.tokenAmount)).sum
             uniqueUsers := ((db.swapEvents.map (fun r => r.buyer)).dedup).length
             tokensPerEth := latest.tokensPerEth }] }

/-! ## Leaderboard calculator (`calculateLeaderboardForPeriod`) -/

/-- One day of milliseconds. -/
def msPerDay : Nat := 86400000

/-- `Date.prototype.setHours(0,0,0,0)` in a fixed UTC-like zone: round the
timestamp down to midnight. -/
def midnightOf (t : Nat) : Nat := t - t % msPerDay

/-- Per-buyer accumulator of the leaderboard aggregation. -/
structure BuyerStats where
  totalSwaps : Nat
  totalVolumeEth : Nat
  totalVolumeTokens : Nat
deriving DecidableEq

def emptyStats : BuyerStats := ⟨0, 0, 0⟩

def addSwap (s : BuyerStats) (r : SwapEventRow) : BuyerStats :=
  { totalSwaps := s.totalSwaps + 1
    totalVolumeEth := s.totalVolumeEth + r.ethAmount
    totalVolumeTokens := s.totalVolumeTokens + r.tokenAmount }

/-- One step of the `userStats` JS `Map` update: `Map` iteration order is
insertion order, so an existing key keeps its position and a new key goes
to the back. -/
def insertStat : List (String × BuyerStats) → String → SwapEventRow →
    List (String × BuyerStats)
  | [], k, r => [(k, addSwap emptyStats r)]
  | (k', v) :: rest, k, r =>
      if k' = k then (k', addSwap v r) :: rest
      else (k', v) :: insertStat rest k r

/-- The `for (const swap of swaps)` aggregation loop over the selected
rows, keyed by `swap.buyer.toLowerCase()`. -/
def aggregateByBuyer (swaps : List SwapEventRow) : List (String × BuyerStats) :=
  swaps.foldl (fun m r => insertStat m (jsToLower r.buyer) r) []

/-- Stable insertion of one entry into a list sorted descending by
`totalVolumeEth`: walk past strictly larger entries only, so an earlier
entry stays ahead of later entries of equal volume — the behaviour of the
stable JS `Array.prototype.sort` with the comparator
`aVol > bVol ? -1 : aVol < bVol ? 1 : 0`. -/
def insertDesc (x : String × BuyerStats) :
    List (String × BuyerStats) → List (String × BuyerStats)
  | [] => [x]
  | y :: ys =>
      if x.2.totalVolumeEth < y.2.totalVolumeEth then y :: insertDesc x ys
      else x :: y :: ys

def sortByVolumeDesc (l : List (String × BuyerStats)) :
    List (String × BuyerStats) :=
  l.foldr insertDesc []

/-- A row of the `Leaderboard` table, unique key
`(period, walletAddress, periodStart)`. -/
structure LeaderboardRow where
  period : String
  walletAddress : String
  totalSwaps : Nat
  totalVolumeEth : Nat
  totalVolumeTokens : Nat
  rank : Nat
  periodStart : Nat
  periodEnd : Nat
deriving DecidableEq

/-- The rows `calculateLeaderboardForPeriod` upserts once the period
bounds are fixed: select `SwapEvent` rows with `createdAt` in
`[periodStart, periodEnd]`, aggregate per lower-cased buyer, sort
descending by ETH volume, and write rank `i + 1` for position `i`. -/
def leaderboardRowsFor (period : String) (periodStart periodEnd : Nat)
    (swaps : List SwapEventRow) : List LeaderboardRow :=
  let selected := swaps.filter
    (fun r => decide (periodStart ≤ r.createdAt ∧ r.createdAt ≤ periodEnd))
  let sorted := sortByVolumeDesc (aggregateByBuyer selected)
  sorted.enum.map (fun p =>
    { period := period
      walletAddress := p.2.1
      totalSwaps := p.2.2.totalSwaps
      totalVolumeEth := p.2.2.totalVolumeEth
      totalVolumeTokens := p.2.2.totalVolumeTokens
      rank := p.1 + 1
      periodStart := periodStart
      periodEnd := periodEnd })

/-- The DAILY branch of `calculateLeaderboardForPeriod` as the code
executes it.  In the source, `let periodEnd = now` makes `periodEnd` an
alias of the very `Date` object that `now.setHours(0, 0, 0, 0)` then
mutates in place, so by the time the query runs **both** bounds equal
midnight of the current day. -/
def calculateLeaderboardDaily (now : Nat) (swaps : List SwapEventRow) :
    List LeaderboardRow :=
  let periodStart := midnightOf now
  let periodEnd := midnightOf now
  leaderboardRowsFor "DAILY" periodStart periodEnd swaps

/-- Modelled from the spec: the DAILY leaderboard tick as §4.5 describes
it — `periodStart` is midnight of the current day and `periodEnd = now`,
the tick's start time.  Kept alongside `calculateLeaderboardDaily` to
compare the code's behaviour with the specified one. -/
def specDailyLeaderboard (now : Nat) (swaps : List SwapEventRow) :
    List LeaderboardRow :=
  leaderboardRowsFor "DAILY" (midnightOf now) now swaps

/-! ## Indexer loop (`indexLoop`)

Module state of the indexer: the in-process cursor `lastProcessedBlock`
and the durable `'indexer:lastBlock'` cache value, next to the store. -/

structure IndexerState where
  lastProcessedBlock : Nat
  durableLastBlock : Option Nat
  db : DB
deriving DecidableEq

/-- How one pass of the `while (isRunning)` body turns out:
`heightFail` — `provider.getBlockNumber()` throws; `fetchFail h` — the
height is `h` but an error escapes `processBlocks` (the `queryFilter`
calls, i.e. fetching the logs of the range, rethrown by its own `catch`);
`ok h evs` — the height is `h` and `processBlocks` receives the swap logs
`evs` of the range (per-log decode/persist errors inside
`processSwapEvent` are caught there and do not escape). -/
inductive CycleOutcome where
  | heightFail : CycleOutcome
  | fetchFail : Nat → CycleOutcome
  | ok : Nat → List RawEvent → CycleOutcome
deriving DecidableEq

/-- One pass of `indexLoop`: returns the next state, the block range
handed to `processBlocks` (if it ran to completion), and the sleep in
milliseconds — 5000 on the normal path, 10000 in the `catch`.  When the
outcome carries a height `h ≤ cursor`, `processBlocks` is never invoked,
so a `fetchFail` there cannot occur; the model maps it to the idle path. -/
def indexCycle (s : IndexerState) (o : CycleOutcome) (now : Nat) :
    IndexerState × Option (Nat × Nat) × Nat :=
  match o with
  | .heightFail => (s, none, 10000)
  | .fetchFail h =>
      if s.lastProcessedBlock < h then (s, none, 10000) else (s, none, 5000)
  | .ok h evs =>
      if s.lastProcessedBlock < h then
        ({ lastProcessedBlock := h
           durableLastBlock := some h
           db := processSwaps s.db evs now },
         some (s.lastProcessedBlock + 1, h), 5000)
      else (s, none, 5000)

/-- A run of consecutive loop passes, collecting the fully processed
block ranges in order. -/
def runCycles (s : IndexerState) :
    List (CycleOutcome × Nat) → IndexerState × List (Nat × Nat)
  | [] => (s, [])
  | (o, t) :: rest =>
      let step := indexCycle s o t
      let tail := runCycles step.1 rest
      (tail.1, step.2.1.toList ++ tail.2)

/-! ## Lemmas about the repository operations -/

theorem createTxRow_txHash (ev : RawEvent) (uid : Nat) :
    (createTxRow ev uid).txHash = ev.txHash := rfl

theorem updateTxRow_txHash (r : TransactionRow) (ev : RawEvent) :
    (updateTxRow r ev).txHash = r.txHash := rfl

theorem updateTxRow_idem (r : TransactionRow) (ev : RawEvent) :
    updateTxRow (updateTxRow r ev) ev = updateTxRow r ev := by
  unfold updateTxRow
  cases ev.blockHash <;> cases ev.gasUsed <;> cases ev.gasPrice <;> rfl

theorem updateTxRow_createTxRow (ev : RawEvent) (uid : Nat) :
    updateTxRow (createTxRow ev uid) ev = createTxRow ev uid := by
  unfold updateTxRow createTxRow
  cases ev.blockHash <;> cases ev.gasUsed <;> cases ev.gasPrice <;> rfl

theorem upsertTxRow_exists_key (rows : List TransactionRow) (ev : RawEvent)
    (uid : Nat) : ∃ t ∈ upsertTxRow rows ev uid, t.txHash = ev.txHash := by
  induction rows with
  | nil => exact ⟨createTxRow ev uid, by simp [upsertTxRow], rfl⟩
  | cons r rest ih =>
      by_cases h : r.txHash = ev.txHash
      · exact ⟨updateTxRow r ev, by simp [upsertTxRow, h],
          (updateTxRow_txHash r ev).trans h⟩
      · obtain ⟨t, ht, he⟩ := ih
        exact ⟨t, by simp [upsertTxRow, h]; exact Or.inr ht, he⟩

theorem upsertTxRow_idem (rows : List TransactionRow) (ev : RawEvent)
    (uid uid2 : Nat) :
    upsertTxRow (upsertTxRow rows ev uid) ev uid2 = upsertTxRow rows ev uid := by
  induction rows with
  | nil => simp [upsertTxRow, createTxRow_txHash, updateTxRow_createTxRow]
  | cons r rest ih =>
      by_cases h : r.txHash = ev.txHash
      · simp [upsertTxRow, h, updateTxRow_txHash, updateTxRow_idem]
      · simp [upsertTxRow, h, ih]

theorem createSwapRow_txHash (ev : RawEvent) (now : Nat) :
    (createSwapRow ev now).txHash = ev.txHash := rfl

theorem createSwapRow_logIndex (ev : RawEvent) (now : Nat) :
    (createSwapRow ev now).logIndex = ev.logIndex := rfl

theorem upsertSwapRow_of_exists (rows : List SwapEventRow) (n : SwapEventRow)
    (h : ∃ r ∈ rows, r.txHash = n.txHash ∧ r.logIndex = n.logIndex) :
    upsertSwapRow rows n = rows := by
  induction rows with
  | nil => simp at h
  | cons r rest ih =>
      by_cases hk : r.txHash = n.txHash ∧ r.logIndex = n.logIndex
      · simp [upsertSwapRow, hk]
      · have : ∃ x ∈ rest, x.txHash = n.txHash ∧ x.logIndex = n.logIndex := by
          obtain ⟨x, hx, hkey⟩ := h
          rcases List.mem_cons.mp hx with hx | hx
          · exact absurd (hx ▸ hkey) hk
          · exact ⟨x, hx, hkey⟩
        simp [upsertSwapRow, hk, ih this]

theorem upsertSwapRow_of_not_exists (rows : List SwapEventRow) (n : SwapEventRow)
    (h : ∀ r ∈ rows, ¬(r.txHash = n.txHash ∧ r.logIndex = n.logIndex)) :
    upsertSwapRow rows n = rows ++ [n] := by
  induction rows with
  | nil => simp [upsertSwapRow]
  | cons r rest ih =>
      have hk := h r (List.mem_cons_self r rest)
      simp [upsertSwapRow, hk]
      exact ih (fun x hx => h x (List.mem_cons_of_mem r hx))

theorem upsertSwapRow_exists_key (rows : List SwapEventRow) (n : SwapEventRow) :
    ∃ r ∈ upsertSwapRow rows n, r.txHash = n.txHash ∧ r.logIndex = n.logIndex := by
  induction rows with
  | nil => exact ⟨n, by simp [upsertSwapRow], rfl, rfl⟩
  | cons r rest ih =>
      by_cases hk : r.txHash = n.txHash ∧ r.logIndex = n.logIndex
      · exact ⟨r, by simp [upsertSwapRow, hk], hk⟩
      · obtain ⟨x, hx, hkey⟩ := ih
        exact ⟨x, by simp [upsertSwapRow, hk]; exact Or.inr hx, hkey⟩

theorem mem_upsertSwapRow (rows : List SwapEventRow) (n r : SwapEventRow)
    (h : r ∈ upsertSwapRow rows n) : r ∈ rows ∨ r = n := by
  induction rows with
  | nil => simp [upsertSwapRow] at h; exact Or.inr h
  | cons x rest ih =>
      by_cases hk : x.txHash = n.txHash ∧ x.logIndex = n.logIndex
      · simp [upsertSwapRow, hk] at h
        exact Or.inl (List.mem_cons.mpr h)
      · simp only [upsertSwapRow, if_neg hk, List.mem_cons] at h
        rcases h with h | h
        · exact Or.inl (h ▸ List.mem_cons_self x rest)
        · rcases ih h with h' | h'
          · exact Or.inl (List.mem_cons_of_mem x h')
          · exact Or.inr h'

theorem findOrCreateUser_users_mem (db : DB) (w : String) :
    ∃ u ∈ (findOrCreateUser db w).1.users, u.walletAddress = w := by
  unfold findOrCreateUser
  cases hf : db.users.find? (fun u => u.walletAddress = w) with
  | none => exact ⟨⟨w, db.users.length⟩, by simp, rfl⟩
  | some u =>
      refine ⟨u, List.mem_of_find?_eq_some hf, ?_⟩
      have := List.find?_some hf
      simpa using this

theorem findOrCreateUser_eq_of_mem (db : DB) (w : String)
    (h : ∃ u ∈ db.users, u.walletAddress = w) :
    (findOrCreateUser db w).1 = db := by
  unfold findOrCreateUser
  cases hf : db.users.find? (fun u => u.walletAddress = w) with
  | none =>
      obtain ⟨u, hu, hw⟩ := h
      have := List.find?_eq_none.mp hf u hu
      simp [hw] at this
  | some u => rfl

theorem findOrCreateUser_swapEvents (db : DB) (w : String) :
    (findOrCreateUser db w).1.swapEvents = db.swapEvents := by
  unfold findOrCreateUser
  cases db.users.find? (fun u => u.walletAddress = w) <;> rfl

theorem findOrCreateUser_transactions (db : DB) (w : String) :
    (findOrCreateUser db w).1.transactions = db.transactions := by
  unfold findOrCreateUser
  cases db.users.find? (fun u => u.walletAddress = w) <;> rfl

theorem findOrCreateUser_users_of_mem (db : DB) (w : String)
    (h : ∃ u ∈ db.users, u.walletAddress = w) :
    ∀ u ∈ db.users, u ∈ (findOrCreateUser db w).1.users := by
  rw [findOrCreateUser_eq_of_mem db w h]
  exact fun u hu => hu

/-! ## Lemmas about `processSwapEvent` -/

theorem processSwapEvent_def (db : DB) (ev : RawEvent) (t : Nat)
    (hm : ev.malformed = false) :
    processSwapEvent db ev t =
      (let p := findOrCreateUser db (jsToLower ev.buyer)
       let db2 := { p.1 with transactions := upsertTxRow p.1.transactions ev p.2 }
       if ev.ethAmount = 0 then db2
       else { db2 with
              swapEvents := upsertSwapRow db2.swapEvents (createSwapRow ev t) }) := by
  simp [processSwapEvent, hm]

theorem processSwapEvent_users (db : DB) (ev : RawEvent) (t : Nat)
    (hm : ev.malformed = false) :
    (processSwapEvent db ev t).users =
      (findOrCreateUser db (jsToLower ev.buyer)).1.users := by
  rw [processSwapEvent_def db ev t hm]
  by_cases he : ev.ethAmount = 0 <;> simp [he]

theorem processSwapEvent_users_mem (db : DB) (ev : RawEvent) (t : Nat)
    (hm : ev.malformed = false) :
    ∃ u ∈ (processSwapEvent db ev t).users,
      u.walletAddress = jsToLower ev.buyer := by
  rw [processSwapEvent_users db ev t hm]
  exact findOrCreateUser_users_mem db (jsToLower ev.buyer)

theorem processSwapEvent_transactions (db : DB) (ev : RawEvent) (t : Nat)
    (hm : ev.malformed = false) :
    (processSwapEvent db ev t).transactions =
      upsertTxRow (findOrCreateUser db (jsToLower ev.buyer)).1.transactions ev
        (findOrCreateUser db (jsToLower ev.buyer)).2 := by
  rw [processSwapEvent_def db ev t hm]
  by_cases he : ev.ethAmount = 0 <;> simp [he]

theorem processSwapEvent_swapEvents_zero (db : DB) (ev : RawEvent) (t : Nat)
    (hm : ev.malformed = false) (he : ev.ethAmount = 0) :
    (processSwapEvent db ev t).swapEvents = db.swapEvents := by
  rw [processSwapEvent_def db ev t hm]
  simp [he, findOrCreateUser_swapEvents]

theorem processSwapEvent_swapEvents_pos (db : DB) (ev : RawEvent) (t : Nat)
    (hm : ev.malformed = false) (he : ¬ ev.ethAmount = 0) :
    (processSwapEvent db ev t).swapEvents =
      upsertSwapRow db.swapEvents (createSwapRow ev t) := by
  rw [processSwapEvent_def db ev t hm]
  simp [he, findOrCreateUser_swapEvents]

theorem processSwapEvent_idem (db : DB) (ev : RawEvent) (t1 t2 : Nat) :
    processSwapEvent (processSwapEvent db ev t1) ev t2 =
      processSwapEvent db ev t1 := by
  by_cases hm : ev.malformed = true
  · simp [processSwapEvent, hm]
  · have hm' : ev.malformed = false := by simpa using hm
    set w := jsToLower ev.buyer with hw
    set d1 := processSwapEvent db ev t1 with hd1
    have hu : ∃ u ∈ d1.users, u.walletAddress = w :=
      processSwapEvent_users_mem db ev t1 hm'
    have hfc : (findOrCreateUser d1 w).1 = d1 :=
      findOrCreateUser_eq_of_mem d1 w hu
    have htx : d1.transactions =
        upsertTxRow (findOrCreateUser db w).1.transactions ev
          (findOrCreateUser db w).2 :=
      processSwapEvent_transactions db ev t1 hm'
    rw [processSwapEvent_def d1 ev t2 hm']
    show (if ev.ethAmount = 0 then
            { (findOrCreateUser d1 w).1 with
              transactions := upsertTxRow (findOrCreateUser d1 w).1.transactions
                ev (findOrCreateUser d1 w).2 }
          else _) = d1
    have hX : { (findOrCreateUser d1 w).1 with
        transactions := upsertTxRow (findOrCreateUser d1 w).1.transactions ev
          (findOrCreateUser d1 w).2 } = d1 := by
      rw [hfc, htx, upsertTxRow_idem, ← htx]
    by_cases he : ev.ethAmount = 0
    · rw [if_pos he]
      exact hX
    · rw [if_neg he, hX]
      have hsw : upsertSwapRow d1.swapEvents (createSwapRow ev t2) =
          d1.swapEvents := by
        apply upsertSwapRow_of_exists
        rw [processSwapEvent_swapEvents_pos db ev t1 hm' he]
        obtain ⟨r, hr, hk⟩ := upsertSwapRow_exists_key db.swapEvents
          (createSwapRow ev t1)
        exact ⟨r, hr, hk.1, hk.2⟩
      rw [hsw]

/-! ## Lemmas about `swapCount` -/

theorem swapCount_eq_zero (rows : List SwapEventRow) (h : String) (i : Nat)
    (h0 : swapCount rows h i = 0) :
    ∀ r ∈ rows, ¬(r.txHash = h ∧ r.logIndex = i) := by
  intro r hr hk
  unfold swapCount at h0
  have hnil := List.length_eq_zero.mp h0
  have : r ∈ rows.filter (fun r => decide (r.txHash = h ∧ r.logIndex = i)) :=
    List.mem_filter.mpr ⟨hr, by simpa using hk⟩
  rw [hnil] at this
  exact absurd this (List.not_mem_nil r)

theorem swapCount_upsert_new (rows : List SwapEventRow) (n : SwapEventRow)
    (h0 : swapCount rows n.txHash n.logIndex = 0) :
    swapCount (upsertSwapRow rows n) n.txHash n.logIndex = 1 := by
  rw [upsertSwapRow_of_not_exists rows n (swapCount_eq_zero rows _ _ h0)]
  unfold swapCount at h0 ⊢
  rw [List.filter_append]
  rw [List.length_eq_zero.mp h0]
  simp

/-! ## Claim theorems -/

/-- Claim C3: processing the same `TokensPurchased` log (same `txHash` and
`logIndex`) a second time, in the same or a later cycle, leaves exactly
one `SwapEvent` row for that key and changes nothing at all in the store
(re-processing is idempotent).  As stated the claim needs the decoded
`ethAmount` to be nonzero — see the counterexample. -/
theorem reprocess_same_log_idempotent (db : DB) (ev : RawEvent) (t1 t2 : Nat)
    (hm : ev.malformed = false) (he : ev.ethAmount ≠ 0)
    (h0 : swapCount db.swapEvents ev.txHash ev.logIndex = 0) :
    swapCount (processSwapEvent (processSwapEvent db ev t1) ev t2).swapEvents
        ev.txHash ev.logIndex = 1 ∧
    processSwapEvent (processSwapEvent db ev t1) ev t2 =
      processSwapEvent db ev t1 := by
  refine ⟨?_, processSwapEvent_idem db ev t1 t2⟩
  rw [processSwapEvent_idem db ev t1 t2,
      processSwapEvent_swapEvents_pos db ev t1 hm he]
  exact swapCount_upsert_new db.swapEvents (createSwapRow ev t1) h0

theorem reprocess_same_log_idempotent_witness :
    (sampleEv.malformed = false ∧ sampleEv.ethAmount ≠ 0 ∧
      swapCount emptyDB.swapEvents sampleEv.txHash sampleEv.logIndex = 0) ∧
    (swapCount (processSwapEvent (processSwapEvent emptyDB sampleEv 1) sampleEv 2).swapEvents
        sampleEv.txHash sampleEv.logIndex = 1 ∧
      processSwapEvent (processSwapEvent emptyDB sampleEv 1) sampleEv 2 =
        processSwapEvent emptyDB sampleEv 1) :=
  ⟨⟨by decide, by decide, by decide⟩,
   reprocess_same_log_idempotent emptyDB sampleEv 1 2 (by decide) (by decide)
     (by decide)⟩

/-- Claim C3, counterexample: for a decodable `TokensPurchased` log with
`ethAmount = 0` the `RangeError` of the rate division prevents the
`SwapEvent` upsert, so processing it twice leaves zero rows for its
`(txHash, logIndex)` key, not one. -/
theorem reprocess_same_log_counterexample :
    swapCount (processSwapEvent (processSwapEvent emptyDB zeroEthEv 1)
        zeroEthEv 2).swapEvents zeroEthEv.txHash zeroEthEv.logIndex = 0 ∧
    swapCount (processSwapEvent (processSwapEvent emptyDB zeroEthEv 1)
        zeroEthEv 2).swapEvents zeroEthEv.txHash zeroEthEv.logIndex ≠ 1 := by
  decide

/-- Claim C4: a decoding error on one individual log is caught inside
`processSwapEvent`: that log changes nothing, and the batch loop of
`processBlocks` still processes every subsequent log of the batch. -/
theorem malformed_log_does_not_abort_batch (db : DB) (pre post : List RawEvent)
    (bad : RawEvent) (t : Nat) (hb : bad.malformed = true) :
    processSwapEvent (processSwaps db pre t) bad t = processSwaps db pre t ∧
    processSwaps db (pre ++ bad :: post) t =
      processSwaps (processSwaps db pre t) post t := by
  have hskip : ∀ d : DB, processSwapEvent d bad t = d := fun d => by
    simp [processSwapEvent, hb]
  refine ⟨hskip _, ?_⟩
  unfold processSwaps
  rw [List.foldl_append, List.foldl_cons, hskip]

theorem malformed_log_does_not_abort_batch_witness :
    badEv.malformed = true ∧
    (processSwapEvent (processSwaps emptyDB [sampleEv] 5) badEv 5 =
        processSwaps emptyDB [sampleEv] 5 ∧
      processSwaps emptyDB ([sampleEv] ++ badEv :: [zeroEthEv]) 5 =
        processSwaps (processSwaps emptyDB [sampleEv] 5) [zeroEthEv] 5) :=
  ⟨by decide,
   malformed_log_does_not_abort_batch emptyDB [sampleEv] [zeroEthEv] badEv 5
     (by decide)⟩

/-- Claim C6: every `SwapEvent` row the indexer creates stores as
`tokensPerEth` the (truncating) quotient of its decoded `tokenAmount` by
its decoded `ethAmount`. -/
theorem swap_rate_is_quotient (db : DB) (ev : RawEvent) (t : Nat)
    (r : SwapEventRow) (hmem : r ∈ (processSwapEvent db ev t).swapEvents)
    (hnew : r ∉ db.swapEvents) :
    r.tokensPerEth = r.tokenAmount / r.ethAmount := by
  by_cases hm : ev.malformed = true
  · rw [show processSwapEvent db ev t = db by simp [processSwapEvent, hm]] at hmem
    exact absurd hmem hnew
  · have hm' : ev.malformed = false := by simpa using hm
    by_cases he : ev.ethAmount = 0
    · rw [processSwapEvent_swapEvents_zero db ev t hm' he] at hmem
      exact absurd hmem hnew
    · rw [processSwapEvent_swapEvents_pos db ev t hm' he] at hmem
      rcases mem_upsertSwapRow _ _ _ hmem with h | h
      · exact absurd h hnew
      · subst h
        rfl

theorem swap_rate_is_quotient_witness :
    (createSwapRow sampleEv 99 ∈ (processSwapEvent emptyDB sampleEv 99).swapEvents ∧
      createSwapRow sampleEv 99 ∉ emptyDB.swapEvents) ∧
    (createSwapRow sampleEv 99).tokensPerEth =
      (createSwapRow sampleEv 99).tokenAmount / (createSwapRow sampleEv 99).ethAmount :=
  ⟨⟨by decide, by decide⟩,
   swap_rate_is_quotient emptyDB sampleEv 99 (createSwapRow sampleEv 99)
     (by decide) (by decide)⟩

/-- Claim C8: when a `Transaction` row with the upserted `txHash` already
exists, every row of the table keeps its identity, ownership (`userId`),
addresses, amounts, type and confirmations; the only rewrite applied to
the matching row is `updateTxRow`, which touches only status, block and
gas fields. -/
theorem tx_upsert_update_frame (rows : List TransactionRow) (ev : RawEvent)
    (uid : Nat) (h : ∃ t ∈ rows, t.txHash = ev.txHash) :
    List.Forall₂ (txFrameOK ev) rows (upsertTxRow rows ev uid) := by
  have hrefl : ∀ l : List TransactionRow, List.Forall₂ (txFrameOK ev) l l := by
    intro l
    induction l with
    | nil => exact List.Forall₂.nil
    | cons x xs ihx =>
        exact List.Forall₂.cons
          ⟨rfl, rfl, rfl, rfl, rfl, rfl, rfl, rfl, rfl, rfl, Or.inl rfl⟩ ihx
  induction rows with
  | nil => simp at h
  | cons r rest ih =>
      by_cases hk : r.txHash = ev.txHash
      · rw [show upsertTxRow (r :: rest) ev uid = updateTxRow r ev :: rest by
          simp [upsertTxRow, hk]]
        exact List.Forall₂.cons
          ⟨rfl, rfl, rfl, rfl, rfl, rfl, rfl, rfl, rfl, rfl, Or.inr rfl⟩
          (hrefl rest)
      · rw [show upsertTxRow (r :: rest) ev uid = r :: upsertTxRow rest ev uid by
          simp [upsertTxRow, hk]]
        have h' : ∃ t ∈ rest, t.txHash = ev.txHash := by
          obtain ⟨t, ht, hhash⟩ := h
          rcases List.mem_cons.mp ht with rfl | ht'
          · exact absurd hhash hk
          · exact ⟨t, ht', hhash⟩
        exact List.Forall₂.cons
          ⟨rfl, rfl, rfl, rfl, rfl, rfl, rfl, rfl, rfl, rfl, Or.inl rfl⟩ (ih h')

theorem tx_upsert_update_frame_witness :
    (∃ t ∈ [createTxRow sampleEv 5], t.txHash = sampleEv.txHash) ∧
    List.Forall₂ (txFrameOK sampleEv) [createTxRow sampleEv 5]
      (upsertTxRow [createTxRow sampleEv 5] sampleEv 0) :=
  ⟨⟨createTxRow sampleEv 5, by decide, by decide⟩,
   tx_upsert_update_frame [createTxRow sampleEv 5] sampleEv 0
     ⟨createTxRow sampleEv 5, by decide, by decide⟩⟩

/-- Claim C10: for a decodable `TokensPurchased` log with
`ethAmount = 0`, `processSwapEvent` still upserts the `User` and
`Transaction` rows, but the `RangeError` thrown by
`BigInt(tokenAmount) / BigInt(ethAmount)` while building the
`swapEvent.upsert` call aborts the event inside its own `catch`, leaving
the `SwapEvent` table untouched — a lasting half-written event. -/
theorem zero_eth_partial_write (db : DB) (ev : RawEvent) (t : Nat)
    (hm : ev.malformed = false) (he : ev.ethAmount = 0) :
    (processSwapEvent db ev t).swapEvents = db.swapEvents ∧
    (∃ u ∈ (processSwapEvent db ev t).users,
      u.walletAddress = jsToLower ev.buyer) ∧
    ∃ tx ∈ (processSwapEvent db ev t).transactions, tx.txHash = ev.txHash := by
  refine ⟨processSwapEvent_swapEvents_zero db ev t hm he,
          processSwapEvent_users_mem db ev t hm, ?_⟩
  rw [processSwapEvent_transactions db ev t hm]
  exact upsertTxRow_exists_key _ ev _

theorem zero_eth_partial_write_witness :
    (zeroEthEv.malformed = false ∧ zeroEthEv.ethAmount = 0) ∧
    ((processSwapEvent emptyDB zeroEthEv 7).swapEvents = emptyDB.swapEvents ∧
      (∃ u ∈ (processSwapEvent emptyDB zeroEthEv 7).users,
        u.walletAddress = jsToLower zeroEthEv.buyer) ∧
      ∃ tx ∈ (processSwapEvent emptyDB zeroEthEv 7).transactions,
        tx.txHash = zeroEthEv.txHash) :=
  ⟨⟨by decide, by decide⟩,
   zero_eth_partial_write emptyDB zeroEthEv 7 (by decide) (by decide)⟩

/-- Claim C7: a metrics tick that finds zero `SwapEvent` rows logs and
returns before computing anything: no snapshot row is written, no
rate-derived value is produced, and the store is left untouched. -/
theorem metrics_tick_noop_on_empty (db : DB) (now : Nat)
    (h : db.swapEvents = []) : calculateMetrics db now = db := by
  unfold calculateMetrics
  rw [h]
  rfl

theorem metrics_tick_noop_on_empty_witness :
    emptyDB.swapEvents = [] ∧ calculateMetrics emptyDB 0 = emptyDB :=
  ⟨rfl, metrics_tick_noop_on_empty emptyDB 0 rfl⟩

/-- Claim C9: over any sequence of indexer cycles — successful, idle or
failing — the cursor `lastProcessedBlock` never decreases, every fully
processed range `(from, to)` starts above the cursor the run began with
and ends at or below the final cursor, and successive processed ranges
are strictly increasing (`to` of one below `from` of the next). -/
theorem cursor_monotone_and_ranges_ordered (s : IndexerState)
    (inputs : List (CycleOutcome × Nat)) :
    s.lastProcessedBlock ≤ (runCycles s inputs).1.lastProcessedBlock ∧
    (∀ r ∈ (runCycles s inputs).2,
      s.lastProcessedBlock < r.1 ∧ r.1 ≤ r.2 ∧
        r.2 ≤ (runCycles s inputs).1.lastProcessedBlock) ∧
    List.Chain' (fun a b : Nat × Nat => a.2 < b.1) (runCycles s inputs).2 := by
  induction inputs generalizing s with
  | nil =>
      exact ⟨le_refl _, fun r hr => absurd hr (List.not_mem_nil r),
        List.chain'_nil⟩
  | cons it rest ih =>
      obtain ⟨o, t⟩ := it
      cases o with
      | heightFail => simpa [runCycles, indexCycle] using ih s
      | fetchFail h =>
          by_cases hlt : s.lastProcessedBlock < h <;>
            simpa [runCycles, indexCycle, hlt] using ih s
      | ok h evs =>
          by_cases hlt : s.lastProcessedBlock < h
          · have ihs := ih (⟨h, some h, processSwaps s.db evs t⟩ : IndexerState)
            simp only [runCycles, indexCycle, if_pos hlt, Option.toList_some,
              List.singleton_append]
            refine ⟨le_trans (le_of_lt hlt) ihs.1, ?_, ?_⟩
            · intro r hr
              rcases List.mem_cons.mp hr with rfl | hr'
              · exact ⟨Nat.lt_succ_self _, Nat.succ_le_of_lt hlt, ihs.1⟩
              · obtain ⟨h1, h2, h3⟩ := ihs.2.1 r hr'
                exact ⟨lt_trans hlt h1, h2, h3⟩
            · refine List.chain'_cons'.mpr ⟨?_, ihs.2.2⟩
              intro y hy
              exact (ihs.2.1 y (List.mem_of_mem_head? hy)).1
          · simpa [runCycles, indexCycle, hlt] using ih s

/-- Claim C1, amended: only a failure that escapes `processBlocks` —
reading the chain height or fetching the logs of the range — aborts the
cycle with the cursor (in-process and durable) at its pre-cycle value and
the 10 s backoff; the next successful cycle then processes a range with
the same `fromBlock`.  (Per-log decode/persistence failures are caught
inside `processSwapEvent` and do not stop the cursor from advancing — see
the counterexample.) -/
theorem cycle_failure_keeps_cursor (s : IndexerState) (h : Nat)
    (evs : List RawEvent) (t t2 t3 : Nat) (hgt : s.lastProcessedBlock < h) :
    indexCycle s .heightFail t = (s, none, 10000) ∧
    indexCycle s (.fetchFail h) t2 = (s, none, 10000) ∧
    (indexCycle s (.ok h evs) t3).2.1 = some (s.lastProcessedBlock + 1, h) ∧
    (indexCycle s (.ok h evs) t3).1.lastProcessedBlock = h ∧
    (indexCycle s (.ok h evs) t3).1.durableLastBlock = some h := by
  refine ⟨rfl, ?_, ?_, ?_, ?_⟩ <;> simp [indexCycle, hgt]

theorem cycle_failure_keeps_cursor_witness :
    ((⟨100, some 100, emptyDB⟩ : IndexerState).lastProcessedBlock < 110) ∧
    (indexCycle ⟨100, some 100, emptyDB⟩ .heightFail 0 =
        (⟨100, some 100, emptyDB⟩, none, 10000) ∧
      indexCycle ⟨100, some 100, emptyDB⟩ (.fetchFail 110) 1 =
        (⟨100, some 100, emptyDB⟩, none, 10000) ∧
      (indexCycle ⟨100, some 100, emptyDB⟩ (.ok 110 [sampleEv]) 2).2.1 =
        some ((⟨100, some 100, emptyDB⟩ : IndexerState).lastProcessedBlock + 1, 110) ∧
      (indexCycle ⟨100, some 100, emptyDB⟩ (.ok 110 [sampleEv]) 2).1.lastProcessedBlock = 110 ∧
      (indexCycle ⟨100, some 100, emptyDB⟩ (.ok 110 [sampleEv]) 2).1.durableLastBlock = some 110) :=
  ⟨by decide,
   cycle_failure_keeps_cursor ⟨100, some 100, emptyDB⟩ 110 [sampleEv] 0 1 2
     (by decide)⟩

/-- Claim C1, counterexample: a cycle over blocks 101–110 whose batch
contains a log that fails decoding (`badEv`) and a log whose persistence
step fails on the zero-division (`zeroEthEv`) still completes, and both
the in-process and the durable cursor advance from 100 to 110 — the claim
that any decode/persist failure leaves the cursor at its pre-cycle value
is false. -/
theorem cycle_failure_keeps_cursor_counterexample :
    badEv.malformed = true ∧ zeroEthEv.ethAmount = 0 ∧
    (indexCycle ⟨100, some 100, emptyDB⟩ (.ok 110 [badEv, zeroEthEv]) 0).1.lastProcessedBlock = 110 ∧
    (indexCycle ⟨100, some 100, emptyDB⟩ (.ok 110 [badEv, zeroEthEv]) 0).1.durableLastBlock = some 110 := by
  decide

/-- Claim C2, code-bug evidence: at a DAILY tick at 12:00 of day one
(`now = 129600000` ms) with a 2-ETH swap by `0xw1` at 10:00 and a 5-ETH
swap by `0xw2` at 11:00 of that day, the code selects `createdAt` in
`[midnight, midnight]` — because `periodEnd` aliases the `Date` object
mutated by `now.setHours(0,0,0,0)` — and writes no leaderboard rows at
all, while the calculation the spec describes (`periodEnd = now`) yields
`0xw2` at rank 1 and `0xw1` at rank 2; moreover even a swap at exactly
midnight is written with `periodEnd` equal to midnight, not to the tick
start time. -/
theorem daily_leaderboard_period_end_bug :
    calculateLeaderboardDaily 129600000
      [{ txHash := "t1", blockNumber := 1, blockHash := "b", buyer := "0xw1",
         ethAmount := 2, tokenAmount := 4, tokensPerEth := 2, logIndex := 0,
         createdAt := 122400000 },
       { txHash := "t2", blockNumber := 1, blockHash := "b", buyer := "0xw2",
         ethAmount := 5, tokenAmount := 10, tokensPerEth := 2, logIndex := 1,
         createdAt := 126000000 }] = [] ∧
    (specDailyLeaderboard 129600000
      [{ txHash := "t1", blockNumber := 1, blockHash := "b", buyer := "0xw1",
         ethAmount := 2, tokenAmount := 4, tokensPerEth := 2, logIndex := 0,
         createdAt := 122400000 },
       { txHash := "t2", blockNumber := 1, blockHash := "b", buyer := "0xw2",
         ethAmount := 5, tokenAmount := 10, tokensPerEth := 2, logIndex := 1,
         createdAt := 126000000 }]).map (fun r => (r.walletAddress, r.rank)) =
      [("0xw2", 1), ("0xw1", 2)] ∧
    (calculateLeaderboardDaily 129600000
      [{ txHash := "t3", blockNumber := 1, blockHash := "b", buyer := "0xw3",
         ethAmount := 1, tokenAmount := 2, tokensPerEth := 2, logIndex := 0,
         createdAt := 86400000 }]).map (fun r => r.periodEnd) = [86400000] := by
  decide

/-! ## Lemmas about the leaderboard aggregation and ranking -/

theorem keys_insertStat (m : List (String × BuyerStats)) (k : String)
    (r : SwapEventRow) :
    (insertStat m k r).map Prod.fst =
      if k ∈ m.map Prod.fst then m.map Prod.fst
      else m.map Prod.fst ++ [k] := by
  induction m with
  | nil => simp [insertStat]
  | cons p rest ih =>
      obtain ⟨k', v⟩ := p
      by_cases hk : k' = k
      · subst hk
        simp [insertStat]
      · have hne : ¬ k = k' := fun hkk => hk hkk.symm
        by_cases hmem : k ∈ rest.map Prod.fst
        · simp [insertStat, hk, ih, hmem, hne]
        · simp [insertStat, hk, ih, hmem, hne]

theorem aggregate_fold_keys (swaps : List SwapEventRow) :
    ∀ m : List (String × BuyerStats),
      (∀ x, x ∈ ((swaps.foldl (fun m r => insertStat m (jsToLower r.buyer) r) m).map
          Prod.fst) ↔
        x ∈ m.map Prod.fst ∨ x ∈ swaps.map (fun r => jsToLower r.buyer)) ∧
      ((m.map Prod.fst).Nodup →
        ((swaps.foldl (fun m r => insertStat m (jsToLower r.buyer) r) m).map
          Prod.fst).Nodup) := by
  induction swaps with
  | nil => intro m; simp
  | cons r rs ih =>
      intro m
      have hkeys := keys_insertStat m (jsToLower r.buyer) r
      have ihm := ih (insertStat m (jsToLower r.buyer) r)
      constructor
      · intro x
        rw [List.foldl_cons]
        rw [ihm.1 x]
        by_cases hmem : jsToLower r.buyer ∈ m.map Prod.fst
        · rw [hkeys, if_pos hmem]
          simp only [List.map_cons, List.mem_cons]
          constructor
          · rintro (hx | hx)
            · exact Or.inl hx
            · exact Or.inr (Or.inr hx)
          · rintro (hx | hx | hx)
            · exact Or.inl hx
            · exact Or.inl (hx ▸ hmem)
            · exact Or.inr hx
        · rw [hkeys, if_neg hmem]
          simp only [List.mem_append, List.mem_singleton, List.map_cons,
            List.mem_cons]
          tauto
      · intro hnd
        rw [List.foldl_cons]
        apply ihm.2
        by_cases hmem : jsToLower r.buyer ∈ m.map Prod.fst
        · rw [hkeys, if_pos hmem]; exact hnd
        · rw [hkeys, if_neg hmem]
          simp [List.nodup_append, hnd, hmem]

theorem aggregate_keys_nodup (swaps : List SwapEventRow) :
    ((aggregateByBuyer swaps).map Prod.fst).Nodup :=
  (aggregate_fold_keys swaps []).2 (by simp)

theorem aggregate_keys_mem (swaps : List SwapEventRow) (x : String) :
    x ∈ (aggregateByBuyer swaps).map Prod.fst ↔
      x ∈ swaps.map (fun r => jsToLower r.buyer) := by
  have h := ((aggregate_fold_keys swaps []).1 x)
  simpa using h

theorem aggregate_length (swaps : List SwapEventRow) :
    (aggregateByBuyer swaps).length =
      ((swaps.map (fun r => jsToLower r.buyer)).dedup).length := by
  calc (aggregateByBuyer swaps).length
      = ((aggregateByBuyer swaps).map Prod.fst).length := by
        rw [List.length_map]
    _ = ((aggregateByBuyer swaps).map Prod.fst).toFinset.card :=
        (List.toFinset_card_of_nodup (aggregate_keys_nodup swaps)).symm
    _ = (swaps.map (fun r => jsToLower r.buyer)).toFinset.card := by
        congr 1
        ext x
        simp only [List.mem_toFinset]
        exact aggregate_keys_mem swaps x
    _ = ((swaps.map (fun r => jsToLower r.buyer)).dedup).length :=
        List.card_toFinset _

theorem insertDesc_perm (x : String × BuyerStats)
    (l : List (String × BuyerStats)) : List.Perm (insertDesc x l) (x :: l) := by
  induction l with
  | nil => exact List.Perm.refl _
  | cons y ys ih =>
      by_cases hc : x.2.totalVolumeEth < y.2.totalVolumeEth
      · rw [show insertDesc x (y :: ys) = y :: insertDesc x ys by
          simp [insertDesc, hc]]
        exact (ih.cons y).trans (List.Perm.swap x y ys)
      · rw [show insertDesc x (y :: ys) = x :: y :: ys by simp [insertDesc, hc]]

theorem sortByVolumeDesc_perm (l : List (String × BuyerStats)) :
    List.Perm (sortByVolumeDesc l) l := by
  induction l with
  | nil => exact List.Perm.refl _
  | cons x xs ih =>
      have : sortByVolumeDesc (x :: xs) = insertDesc x (sortByVolumeDesc xs) :=
        rfl
      rw [this]
      exact (insertDesc_perm x (sortByVolumeDesc xs)).trans (ih.cons x)

theorem enumFrom_map_succ {α : Type} :
    ∀ (n : Nat) (l : List α),
      (List.enumFrom n l).map (fun p => p.1 + 1) = List.range' (n + 1) l.length
  | _, [] => rfl
  | n, x :: xs => by
      simp only [List.enumFrom, List.map_cons, List.length_cons, List.range']
      rw [enumFrom_map_succ (n + 1) xs]

theorem enumFrom_map_snd {α : Type} :
    ∀ (n : Nat) (l : List α), (List.enumFrom n l).map Prod.snd = l
  | _, [] => rfl
  | n, x :: xs => by
      simp only [List.enumFrom, List.map_cons]
      rw [enumFrom_map_snd (n + 1) xs]

/-- Claim C5: the rank values a leaderboard tick writes for a given
`(period, periodStart)` are exactly `1 .. N`, where `N` is the number of
distinct (normalized) buyer addresses among the selected swaps; each rank
is attached to a distinct wallet and every row carries the tick's period
and `periodStart`. -/
theorem leaderboard_rank_totality (period : String) (ps pe : Nat)
    (swaps : List SwapEventRow) :
    (leaderboardRowsFor period ps pe swaps).map (fun r => r.rank) =
      List.range' 1 (((swaps.filter (fun r =>
        decide (ps ≤ r.createdAt ∧ r.createdAt ≤ pe))).map
          (fun r => jsToLower r.buyer)).dedup).length ∧
    ((leaderboardRowsFor period ps pe swaps).map
      (fun r => r.walletAddress)).Nodup ∧
    ∀ r ∈ leaderboardRowsFor period ps pe swaps,
      r.period = period ∧ r.periodStart = ps := by
  refine ⟨?_, ?_, ?_⟩
  · unfold leaderboardRowsFor
    simp only [List.map_map]
    show (List.enum (sortByVolumeDesc (aggregateByBuyer (swaps.filter (fun r =>
        decide (ps ≤ r.createdAt ∧ r.createdAt ≤ pe)))))).map
      (fun p => p.1 + 1) = _
    simp only [List.enum]
    rw [enumFrom_map_succ 0]
    rw [(sortByVolumeDesc_perm _).length_eq, aggregate_length]
  · unfold leaderboardRowsFor
    simp only [List.map_map]
    show ((List.enum (sortByVolumeDesc (aggregateByBuyer (swaps.filter (fun r =>
        decide (ps ≤ r.createdAt ∧ r.createdAt ≤ pe)))))).map
      (fun p => Prod.fst (Prod.snd p))).Nodup
    rw [show (fun p : Nat × (String × BuyerStats) => Prod.fst (Prod.snd p)) =
        (Prod.fst ∘ Prod.snd) from rfl]
    rw [← List.map_map]
    simp only [List.enum]
    rw [enumFrom_map_snd 0]
    exact ((sortByVolumeDesc_perm _).map Prod.fst).nodup_iff.mpr
      (aggregate_keys_nodup _)
  · intro r hr
    unfold leaderboardRowsFor at hr
    obtain ⟨p, hp, rfl⟩ := List.mem_map.mp hr
    exact ⟨rfl, rfl⟩

end Momo
